import Mathlib

/-!
Verification development for the RAGChatbot repository.

Text is modelled as `List Char` (JavaScript strings over the characters the
code actually manipulates); numeric values produced by the embedding and
reranking models are modelled as rationals, and the external collaborators
(embedding model, cross-encoder, content hash, PDF text extractor) are
passed in as function parameters, exactly as they are external services in
the source. Fallible collaborator calls return `Option`; `none` models a
thrown exception.
-/

/-! ## Text normalizer (worker cleanText) -/

/-- The null byte test: JS regex `/\0/g` in `cleanText`. -/
def isNullChar (c : Char) : Bool :=
  c.toNat == 0

/-- C0 control characters: JS regex `[\u0001-\u001F]` in `cleanText`. -/
def isC0Control (c : Char) : Bool :=
  1 ≤ c.toNat && c.toNat ≤ 31

/-- The JavaScript `\s` character class (also the `trim` whitespace set),
restricted to the code points it names. -/
def isJsWhitespace (c : Char) : Bool :=
  let n := c.toNat
  n == 9 || n == 10 || n == 11 || n == 12 || n == 13 || n == 32 ||
  n == 160 || n == 0x1680 || (0x2000 ≤ n && n ≤ 0x200A) ||
  n == 0x2028 || n == 0x2029 || n == 0x202F || n == 0x205F ||
  n == 0x3000 || n == 0xFEFF

/-- Stage 1 of `cleanText`: `.replace(/\0/g, "")`. -/
def removeNullBytes (l : List Char) : List Char :=
  l.filter (fun c => !isNullChar c)

/-- Stage 2 of `cleanText`: `.replace(/[\u0001-\u001F]/g, "")`. -/
def removeControlChars (l : List Char) : List Char :=
  l.filter (fun c => !isC0Control c)

/-- Stage 3 of `cleanText`: `.replace(/\s+/g, " ")`. The flag records
whether the previous character was part of a whitespace run already
replaced by one space. -/
def collapseWhitespaceAux : Bool → List Char → List Char
  | _, [] => []
  | true, c :: rest =>
    if isJsWhitespace c then collapseWhitespaceAux true rest
    else c :: collapseWhitespaceAux false rest
  | false, c :: rest =>
    if isJsWhitespace c then ' ' :: collapseWhitespaceAux true rest
    else c :: collapseWhitespaceAux false rest

/-- Stage 3 of `cleanText`: every maximal whitespace run becomes one space. -/
def collapseWhitespace (l : List Char) : List Char :=
  collapseWhitespaceAux false l

/-- Stage 4 of `cleanText`: JS `String.prototype.trim`. -/
def trimWhitespace (l : List Char) : List Char :=
  ((l.dropWhile isJsWhitespace).reverse.dropWhile isJsWhitespace).reverse

/-- `cleanText` from the worker (src/unnamed/part_001, second file): remove
null bytes, remove C0 controls, collapse whitespace runs to single spaces,
trim. -/
def cleanText (l : List Char) : List Char :=
  trimWhitespace (collapseWhitespace (removeControlChars (removeNullBytes l)))

/-! ## Splitting on blank lines (JS text.split with separator of two
newline characters) -/

/-- Accumulating splitter: `acc` holds the current segment reversed. -/
def splitOnBlankAux : List Char → List Char → List (List Char)
  | acc, [] => [acc.reverse]
  | acc, [c] => [(c :: acc).reverse]
  | acc, c1 :: c2 :: rest =>
    if c1 = '\n' ∧ c2 = '\n' then acc.reverse :: splitOnBlankAux [] rest
    else splitOnBlankAux (c1 :: acc) (c2 :: rest)

/-- JS `text.split` on the two-character separator of two newlines:
non-overlapping occurrences scanned left to right; the empty text yields
one empty segment. -/
def splitOnBlankLines (l : List Char) : List (List Char) :=
  splitOnBlankAux [] l

/-! ## Recursive chunking (recursiveChunkWithMeta) -/

/-- A chunk record before index assignment, as pushed inside
`recursiveChunkWithMeta`. -/
structure RecChunk where
  chunk_text : List Char
  char_start : Nat
  char_end : Nat
deriving DecidableEq, Repr

/-- A chunk record with metadata, as returned by the chunking strategies
of the worker. -/
structure ChunkMeta where
  chunk_text : List Char
  char_start : Nat
  char_end : Nat
  chunk_type : String
  chunk_index : Nat
deriving DecidableEq, Repr

/-- Index assignment: JS `chunks.map` over the element and its position. -/
def withIndices {α β : Type} (f : Nat → α → β) : List α → Nat → List β
  | [], _ => []
  | a :: t, i => f i a :: withIndices f t (i + 1)

/-- The loop of `recursiveChunkWithMeta`: fold the blank-line parts into a
running buffer bounded by `maxChars`; flush the cleaned buffer when the
next part would overflow; `start` advances by the buffer length minus
`overlap`, never below zero (Nat subtraction). After the loop the final
buffer is flushed when its trimmed text is non-empty. -/
def recursiveGo (maxChars overlap : Nat) :
    List (List Char) → List Char → Nat → List RecChunk
  | [], current, start =>
    if trimWhitespace current ≠ [] then
      [⟨cleanText current, start, start + (cleanText current).length⟩]
    else []
  | part :: rest, current, start =>
    if (current ++ part).length ≤ maxChars then
      recursiveGo maxChars overlap rest (current ++ part ++ ['\n', '\n']) start
    else
      (if cleanText current ≠ [] then
        [(⟨cleanText current, start, start + (cleanText current).length⟩ : RecChunk)]
      else []) ++
      recursiveGo maxChars overlap rest (part ++ ['\n', '\n'])
        (start + (current.length - overlap))

/-- `recursiveChunkWithMeta` from the worker (src/unnamed/part_001 second
file): split on blank lines, accumulate, flush, then assign dense indices
and the chunk type tag. -/
def recursiveChunkWithMeta (text : List Char) (maxChars overlap : Nat) :
    List ChunkMeta :=
  withIndices
    (fun i c => ⟨c.chunk_text, c.char_start, c.char_end, "recursive", i⟩)
    (recursiveGo maxChars overlap (splitOnBlankLines text) [] 0) 0

/-! ## Paragraph chunking (paragraphChunkWithMeta) -/

/-- A paragraph chunk record; offsets are integers because JS `indexOf`
returns -1 on a failed search. -/
structure ParaChunk where
  chunk_text : List Char
  char_start : Int
  char_end : Int
  chunk_type : String
  chunk_index : Nat
deriving DecidableEq, Repr

/-- Scan for the first occurrence of `pat` in the remaining text, counting
absolute positions from `i`. -/
def findSubAux (pat : List Char) : List Char → Nat → Option Nat
  | [], i => if pat = [] then some i else none
  | h :: t, i =>
    if pat.isPrefixOf (h :: t) then some i else findSubAux pat t (i + 1)

/-- JS `hay.indexOf(pat, pos)`: first occurrence at index at least
`max 0 pos`, or -1. -/
def indexOfFrom (hay pat : List Char) (pos : Int) : Int :=
  match findSubAux pat (hay.drop pos.toNat) pos.toNat with
  | some i => Int.ofNat i
  | none => -1

/-- The loop of `paragraphChunkWithMeta`: clean each blank-line part, skip
empty ones (advancing the cursor past the raw part and separator), locate
the cleaned text by scanning forward from the cursor, record offsets, and
move the cursor to the end offset. -/
def paragraphGo (text : List Char) :
    List (List Char) → Int → Nat → List ParaChunk
  | [], _, _ => []
  | part :: rest, cursor, index =>
    if cleanText part = [] then
      paragraphGo text rest (cursor + part.length + 2) index
    else
      let trimmed := cleanText part
      let start := indexOfFrom text trimmed cursor
      let stop := start + trimmed.length
      ⟨trimmed, start, stop, "paragraph", index⟩ ::
        paragraphGo text rest stop (index + 1)

/-- `paragraphChunkWithMeta` from the worker (src/unnamed/part_001 second
file). -/
def paragraphChunkWithMeta (text : List Char) : List ParaChunk :=
  paragraphGo text (splitOnBlankLines text) 0 0

/-! ## Hybrid chunking (hybridChunkWithMeta) -/

/-- A hybrid chunk record. The text and offset fields are optional because
JS spreads `base[0]`, which is `undefined` when the recursive base is
empty, so the produced object can lack those properties. -/
structure HybridChunk where
  chunk_text : Option (List Char)
  char_start : Option Nat
  char_end : Option Nat
  chunk_type : String
  chunk_index : Nat
deriving DecidableEq, Repr

/-- The merge pass of `hybridChunkWithMeta`: greedily concatenate the next
chunk into the current one while the combined text stays under 1800
characters, joining with one space and extending the end offset. -/
def hybridMergeGo : ChunkMeta → List ChunkMeta → List ChunkMeta
  | current, [] => [current]
  | current, next :: rest =>
    if current.chunk_text.length + next.chunk_text.length < 1800 then
      hybridMergeGo
        { current with
          chunk_text := current.chunk_text ++ [' '] ++ next.chunk_text,
          char_end := next.char_end,
          chunk_type := "hybrid" } rest
    else current :: hybridMergeGo next rest

/-- `hybridChunkWithMeta` from the worker (src/unnamed/part_001 second
file): recursive base with maxChars 1500 and overlap 200, then the merge
pass, then dense re-indexing and re-tagging. When the base is empty the JS
code still pushes the spread of an undefined current chunk, producing one
record that carries only the index and the type tag. -/
def hybridChunkWithMeta (text : List Char) : List HybridChunk :=
  match recursiveChunkWithMeta text 1500 200 with
  | [] => [⟨none, none, none, "hybrid", 0⟩]
  | b :: rest =>
    withIndices
      (fun i c =>
        ⟨some c.chunk_text, some c.char_start, some c.char_end, "hybrid", i⟩)
      (hybridMergeGo b rest) 0

/-! ## Length lemmas for the text normalizer -/

theorem collapseWhitespaceAux_length_le (l : List Char) :
    ∀ b, (collapseWhitespaceAux b l).length ≤ l.length := by
  induction l with
  | nil => intro b; simp [collapseWhitespaceAux]
  | cons c rest ih =>
    intro b
    by_cases h : isJsWhitespace c = true
    · cases b
      · simp only [collapseWhitespaceAux, h, if_true, List.length_cons]
        exact Nat.succ_le_succ (ih true)
      · simp only [collapseWhitespaceAux, h, if_true, List.length_cons]
        exact Nat.le_succ_of_le (ih true)
    · cases b <;>
        simp only [collapseWhitespaceAux, h, if_false, List.length_cons] <;>
        exact Nat.succ_le_succ (ih false)

theorem dropWhileWs_length_le (p : Char → Bool) (l : List Char) :
    (l.dropWhile p).length ≤ l.length := by
  induction l with
  | nil => simp
  | cons c rest ih =>
    by_cases h : p c = true
    · simp [List.dropWhile, h]; omega
    · simp [List.dropWhile, h]

theorem trimWhitespace_length_le (l : List Char) :
    (trimWhitespace l).length ≤ l.length := by
  unfold trimWhitespace
  calc ((l.dropWhile isJsWhitespace).reverse.dropWhile isJsWhitespace).reverse.length
      = ((l.dropWhile isJsWhitespace).reverse.dropWhile isJsWhitespace).length := by
        simp
    _ ≤ (l.dropWhile isJsWhitespace).reverse.length := dropWhileWs_length_le _ _
    _ = (l.dropWhile isJsWhitespace).length := by simp
    _ ≤ l.length := dropWhileWs_length_le _ _

theorem cleanText_length_le (l : List Char) :
    (cleanText l).length ≤ l.length := by
  unfold cleanText removeControlChars removeNullBytes
  calc (trimWhitespace (collapseWhitespace
          (((l.filter (fun c => !isNullChar c)).filter (fun c => !isC0Control c))))).length
      ≤ (collapseWhitespace
          ((l.filter (fun c => !isNullChar c)).filter (fun c => !isC0Control c))).length :=
        trimWhitespace_length_le _
    _ ≤ ((l.filter (fun c => !isNullChar c)).filter (fun c => !isC0Control c)).length :=
        collapseWhitespaceAux_length_le _ _
    _ ≤ (l.filter (fun c => !isNullChar c)).length := List.length_filter_le _ _
    _ ≤ l.length := List.length_filter_le _ _

/-! ## Membership through index assignment -/

theorem mem_withIndices {α β : Type} (f : Nat → α → β) (l : List α) (i : Nat)
    (b : β) (h : b ∈ withIndices f l i) : ∃ j a, a ∈ l ∧ b = f j a := by
  induction l generalizing i with
  | nil => simp [withIndices] at h
  | cons x t ih =>
    simp only [withIndices, List.mem_cons] at h
    rcases h with h | h
    · exact ⟨i, x, List.mem_cons_self x t, h⟩
    · obtain ⟨j, a, ha, hb⟩ := ih (i + 1) h
      exact ⟨j, a, List.mem_cons_of_mem x ha, hb⟩

/-! ## The recursive chunker respects the size budget when no single
paragraph exceeds it -/

theorem recursiveGo_length_bound (maxChars overlap : Nat)
    (parts : List (List Char)) :
    ∀ current start,
      (∀ p ∈ parts, p.length ≤ maxChars) →
      current.length ≤ maxChars + 2 →
      ∀ c ∈ recursiveGo maxChars overlap parts current start,
        c.chunk_text.length ≤ maxChars + 2 := by
  induction parts with
  | nil =>
    intro current start _ hcur c hc
    simp only [recursiveGo] at hc
    by_cases h : trimWhitespace current ≠ []
    · simp [h] at hc
      subst hc
      exact Nat.le_trans (cleanText_length_le current) hcur
    · simp [h] at hc
  | cons part rest ih =>
    intro current start hparts hcur c hc
    have hpart : part.length ≤ maxChars := hparts part (List.mem_cons_self _ _)
    have hrest : ∀ p ∈ rest, p.length ≤ maxChars :=
      fun p hp => hparts p (List.mem_cons_of_mem _ hp)
    simp only [recursiveGo] at hc
    by_cases hfit : (current ++ part).length ≤ maxChars
    · simp only [hfit, if_true] at hc
      refine ih _ _ hrest ?_ c hc
      simp only [List.length_append, List.length_cons, List.length_nil]
      simp only [List.length_append] at hfit
      omega
    · simp only [hfit, if_false, List.mem_append] at hc
      rcases hc with hc | hc
      · by_cases hcl : cleanText current ≠ []
        · simp [hcl] at hc
          subst hc
          exact Nat.le_trans (cleanText_length_le current) hcur
        · simp [hcl] at hc
      · refine ih _ _ hrest ?_ c hc
        simp only [List.length_append, List.length_cons, List.length_nil]
        omega

/-! ## Claim C5 -/

/-- Claim C5 (amended): with the default parameters maxChars = 1500 and
overlap = 200, every chunk record produced by `recursiveChunkWithMeta` has
text of length at most maxChars + overlap = 1700 characters, provided no
blank-line-separated part of the input itself exceeds maxChars characters.
The proviso is forced by the counterexample: the code never splits a
single oversized paragraph, so such a paragraph flows through whole. -/
theorem recursiveChunk_length_bounded (text : List Char)
    (h : ∀ p ∈ splitOnBlankLines text, p.length ≤ 1500) :
    ∀ c ∈ recursiveChunkWithMeta text 1500 200, c.chunk_text.length ≤ 1700 := by
  intro c hc
  unfold recursiveChunkWithMeta at hc
  obtain ⟨j, a, ha, hb⟩ := mem_withIndices _ _ 0 c hc
  have hbnd :=
    recursiveGo_length_bound 1500 200 (splitOnBlankLines text) [] 0 h
      (by simp) a ha
  subst hb
  exact Nat.le_trans hbnd (by norm_num)

/-- Witness for C5 on a concrete two-paragraph input. -/
theorem recursiveChunk_length_bounded_witness :
    (∀ p ∈ splitOnBlankLines ['a', 'b', '\n', '\n', 'c', 'd'], p.length ≤ 1500) ∧
    (∀ c ∈ recursiveChunkWithMeta ['a', 'b', '\n', '\n', 'c', 'd'] 1500 200,
      c.chunk_text.length ≤ 1700) :=
  ⟨by decide, recursiveChunk_length_bounded _ (by decide)⟩

set_option maxRecDepth 100000 in
/-- Counterexample to C5 as stated: a single paragraph of 1701 identical
characters (no blank-line separator anywhere) is emitted as one chunk of
1701 characters, exceeding maxChars + overlap = 1700. -/
theorem recursiveChunk_length_counterexample :
    ∃ c ∈ recursiveChunkWithMeta (List.replicate 1701 'a') 1500 200,
      1700 < c.chunk_text.length := by decide

/-! ## Claim C6 -/

/-- Claim C6 (amended): for empty input the paragraph and recursive
strategies return zero chunk records, but the hybrid strategy returns one
degenerate record (only the index and type tag, no text and no offsets),
because the merge pass unconditionally pushes the spread of the first
element of an empty base. -/
theorem chunkers_empty_input :
    paragraphChunkWithMeta [] = [] ∧
    recursiveChunkWithMeta [] 1500 200 = [] ∧
    hybridChunkWithMeta [] = [⟨none, none, none, "hybrid", 0⟩] := by
  decide

/-- Counterexample to C6 as stated: the hybrid strategy does not return
zero chunk records on empty input. -/
theorem chunkers_empty_input_counterexample :
    hybridChunkWithMeta [] ≠ [] := by decide

/-! ## Properties of the text normalizer (claim C7) -/

theorem mem_collapseWhitespaceAux (l : List Char) :
    ∀ b c, c ∈ collapseWhitespaceAux b l →
      c = ' ' ∨ (c ∈ l ∧ isJsWhitespace c = false) := by
  induction l with
  | nil => intro b c hc; simp [collapseWhitespaceAux] at hc
  | cons x rest ih =>
    intro b c hc
    by_cases hx : isJsWhitespace x = true
    · cases b
      · simp only [collapseWhitespaceAux, hx, if_true, List.mem_cons] at hc
        rcases hc with hc | hc
        · exact Or.inl hc
        · rcases ih true c hc with h | ⟨hm, hw⟩
          · exact Or.inl h
          · exact Or.inr ⟨List.mem_cons_of_mem x hm, hw⟩
      · simp only [collapseWhitespaceAux, hx, if_true] at hc
        rcases ih true c hc with h | ⟨hm, hw⟩
        · exact Or.inl h
        · exact Or.inr ⟨List.mem_cons_of_mem x hm, hw⟩
    · have hstep : ∀ b, collapseWhitespaceAux b (x :: rest)
          = x :: collapseWhitespaceAux false rest := by
        intro b; cases b <;> simp [collapseWhitespaceAux, hx]
      rw [hstep, List.mem_cons] at hc
      rcases hc with hc | hc
      · subst hc
        exact Or.inr ⟨List.mem_cons_self _ _, by simpa using hx⟩
      · rcases ih false c hc with h | ⟨hm, hw⟩
        · exact Or.inl h
        · exact Or.inr ⟨List.mem_cons_of_mem x hm, hw⟩

theorem mem_trimWhitespace (l : List Char) (c : Char)
    (hc : c ∈ trimWhitespace l) : c ∈ l := by
  unfold trimWhitespace at hc
  rw [List.mem_reverse] at hc
  have h1 := (List.dropWhile_suffix isJsWhitespace
    (l := (l.dropWhile isJsWhitespace).reverse)).sublist.subset hc
  rw [List.mem_reverse] at h1
  exact (List.dropWhile_suffix isJsWhitespace (l := l)).sublist.subset h1

theorem collapseWhitespaceAux_true_head (l : List Char) :
    ∀ c, (collapseWhitespaceAux true l).head? = some c →
      isJsWhitespace c = false := by
  induction l with
  | nil => intro c hc; simp [collapseWhitespaceAux] at hc
  | cons x rest ih =>
    intro c hc
    by_cases hx : isJsWhitespace x = true
    · simp only [collapseWhitespaceAux, hx, if_true] at hc
      exact ih c hc
    · simp only [collapseWhitespaceAux] at hc
      rw [if_neg hx, List.head?_cons, Option.some.injEq] at hc
      rw [← hc]
      simpa using hx

/-- The pairwise relation of claim C7: no two adjacent whitespace
characters. -/
def NoWsPair (a b : Char) : Prop :=
  ¬(isJsWhitespace a = true ∧ isJsWhitespace b = true)

theorem chain_collapseWhitespaceAux (l : List Char) :
    ∀ b, List.Chain' NoWsPair (collapseWhitespaceAux b l) := by
  induction l with
  | nil => intro b; simp [collapseWhitespaceAux]
  | cons x rest ih =>
    intro b
    by_cases hx : isJsWhitespace x = true
    · cases b
      · simp only [collapseWhitespaceAux, hx, if_true]
        rw [List.chain'_cons']
        refine ⟨?_, ih true⟩
        intro y hy
        have := collapseWhitespaceAux_true_head rest y hy
        intro ⟨_, hw⟩
        rw [this] at hw
        exact Bool.false_ne_true hw
      · simp only [collapseWhitespaceAux, hx, if_true]
        exact ih true
    · have hstep : ∀ b, collapseWhitespaceAux b (x :: rest)
          = x :: collapseWhitespaceAux false rest := by
        intro b; cases b <;> simp [collapseWhitespaceAux, hx]
      rw [hstep]
      rw [List.chain'_cons']
      refine ⟨?_, ih false⟩
      intro y _
      intro ⟨hw, _⟩
      exact hx hw

theorem dropWhile_isSuffix (p : Char → Bool) (l : List Char) :
    l.dropWhile p <:+ l := by
  induction l with
  | nil => simp [List.dropWhile]
  | cons c t ih =>
    by_cases h : p c = true
    · simp only [List.dropWhile, h]
      exact ih.trans (List.suffix_cons c t)
    · simp only [List.dropWhile, h]
      simp

theorem head?_dropWhile (p : Char → Bool) (l : List Char) (c : Char)
    (hc : (l.dropWhile p).head? = some c) : p c = false := by
  induction l with
  | nil => simp [List.dropWhile] at hc
  | cons x t ih =>
    by_cases h : p x = true
    · simp only [List.dropWhile, h] at hc
      exact ih hc
    · simp only [List.dropWhile, h] at hc
      simp only [Bool.not_eq_true] at h
      simp only [List.head?_cons, Option.some.injEq] at hc
      rw [← hc]
      exact h

theorem getLast?_of_isSuffix (l' l : List Char) (c : Char)
    (hs : l' <:+ l) (hc : l'.getLast? = some c) : l.getLast? = some c := by
  obtain ⟨t, rfl⟩ := hs
  have hne : l' ≠ [] := by
    intro h
    rw [h] at hc
    simp at hc
  rw [List.getLast?_append_of_ne_nil t hne]
  exact hc

theorem chain_trimWhitespace (l : List Char)
    (h : List.Chain' NoWsPair l) : List.Chain' NoWsPair (trimWhitespace l) := by
  unfold trimWhitespace
  rw [List.chain'_reverse]
  have h1 : List.Chain' NoWsPair (l.dropWhile isJsWhitespace) :=
    h.suffix (dropWhile_isSuffix _ _)
  have h2 : List.Chain' (flip NoWsPair) (l.dropWhile isJsWhitespace).reverse := by
    rw [List.chain'_reverse]
    exact h1
  exact h2.suffix (dropWhile_isSuffix isJsWhitespace
    (l.dropWhile isJsWhitespace).reverse)

theorem trimWhitespace_head (l : List Char) (c : Char)
    (hc : (trimWhitespace l).head? = some c) : isJsWhitespace c = false := by
  unfold trimWhitespace at hc
  rw [List.head?_reverse] at hc
  have h1 := getLast?_of_isSuffix _ _ c
    (dropWhile_isSuffix isJsWhitespace (l.dropWhile isJsWhitespace).reverse) hc
  rw [List.getLast?_reverse] at h1
  exact head?_dropWhile _ _ _ h1

theorem trimWhitespace_getLast (l : List Char) (c : Char)
    (hc : (trimWhitespace l).getLast? = some c) : isJsWhitespace c = false := by
  unfold trimWhitespace at hc
  rw [List.getLast?_reverse] at hc
  exact head?_dropWhile _ _ _ hc

/-! ## Claim C7 -/

/-- Claim C7 (confirmed): the text normalizer `cleanText` is a total pure
function; empty input yields empty output; no null or C0-control character
survives (every output character has code point at least 32); every
whitespace character in the output is a plain space and no two adjacent
output characters are both whitespace (runs collapsed to single spaces);
and the output is trimmed (its first and last characters, when present,
are not whitespace). -/
theorem cleanText_spec (l : List Char) :
    cleanText [] = [] ∧
    (∀ c ∈ cleanText l, 32 ≤ c.toNat) ∧
    (∀ c ∈ cleanText l, isJsWhitespace c = true → c = ' ') ∧
    List.Chain' NoWsPair (cleanText l) ∧
    (∀ c, (cleanText l).head? = some c → isJsWhitespace c = false) ∧
    (∀ c, (cleanText l).getLast? = some c → isJsWhitespace c = false) := by
  refine ⟨rfl, ?_, ?_, ?_, ?_, ?_⟩
  · intro c hc
    have hm := mem_trimWhitespace _ c hc
    rcases mem_collapseWhitespaceAux _ false c hm with h | ⟨hmem, _⟩
    · subst h; decide
    · unfold removeControlChars removeNullBytes at hmem
      rw [List.mem_filter] at hmem
      obtain ⟨hmem2, hctl⟩ := hmem
      rw [List.mem_filter] at hmem2
      obtain ⟨_, hnull⟩ := hmem2
      simp only [isC0Control, Bool.not_eq_true', Bool.and_eq_false_iff,
        decide_eq_false_iff_not] at hctl
      simp only [isNullChar, Bool.not_eq_true', beq_eq_false_iff_ne,
        ne_eq] at hnull
      omega
  · intro c hc hws
    have hm := mem_trimWhitespace _ c hc
    rcases mem_collapseWhitespaceAux _ false c hm with h | ⟨_, hnws⟩
    · exact h
    · rw [hws] at hnws
      exact absurd hnws (by simp)
  · exact chain_trimWhitespace _ (chain_collapseWhitespaceAux _ false)
  · intro c hc
    exact trimWhitespace_head _ c hc
  · intro c hc
    exact trimWhitespace_getLast _ c hc

/-! ## Worker ingestion: the per-chunk embed-and-insert loop of
processPdfBufferAndInsert (claim C3) -/

/-- Number of maximal whitespace runs, used by the JS token counter
`chunk_text.split` on a whitespace-run separator, whose result length is
one more than the number of runs. -/
def countWsRunsAux : Bool → List Char → Nat
  | _, [] => 0
  | true, c :: rest =>
    if isJsWhitespace c then countWsRunsAux true rest
    else countWsRunsAux false rest
  | false, c :: rest =>
    if isJsWhitespace c then 1 + countWsRunsAux true rest
    else countWsRunsAux false rest

/-- A row inserted into the chunks table by the worker. -/
structure InsertedChunkRow where
  document_id : Nat
  chunk_text : List Char
  embedding : List ℚ
  token_count : Nat
  chunk_index : Nat
  chunk_type : String
  char_start : Nat
  char_end : Nat
deriving DecidableEq, Repr

/-- The chunk persistence loop of `processPdfBufferAndInsert`
(src/unnamed/part_001, second file, lines 344-373), together with the
enclosing try/catch of the whole function body: for each chunk the
embedder is awaited and the row inserted. There is no per-chunk catch, so
an embedder exception (modelled by `none`) propagates to the
function-level catch and ends the loop; rows inserted before the failure
remain, rows after it are never attempted. Insert errors are only logged
and do not stop the loop, so persistence itself is modelled as total. -/
def processPdfBufferAndInsert (embedder : List Char → Option (List ℚ))
    (documentId : Nat) : List ChunkMeta → List InsertedChunkRow
  | [] => []
  | chunk :: rest =>
    match embedder chunk.chunk_text with
    | none => []
    | some v =>
      ⟨documentId, chunk.chunk_text, v, countWsRunsAux false chunk.chunk_text + 1,
        chunk.chunk_index, chunk.chunk_type, chunk.char_start, chunk.char_end⟩ ::
        processPdfBufferAndInsert embedder documentId rest

/-! ## Claim C3 -/

/-- Claim C3 (code bug): an embedding failure on a single chunk does not
merely skip that chunk — it aborts all remaining chunks of the document.
Here the embedder fails exactly on the second of three chunks; the third
chunk embeds fine, yet only the first chunk is persisted. The spec (and
the older worker in the same file, which wraps each chunk in its own
try/catch) requires the third chunk to be persisted as well. -/
theorem processPdfBufferAndInsert_aborts_after_failure :
    (processPdfBufferAndInsert
        (fun t => if t = ['b'] then none else some ([1] : List ℚ)) 7
        [⟨['a'], 0, 1, "hybrid", 0⟩, ⟨['b'], 2, 3, "hybrid", 1⟩,
         ⟨['c'], 4, 5, "hybrid", 2⟩]).map (fun r => r.chunk_text) = [['a']] ∧
    (fun t => if t = ['b'] then none else some ([1] : List ℚ)) ['c']
      = some [1] := by
  decide

/-! ## Chat API data model (src/pages/api/chat.js) -/

/-- A row of the documents table as used by the chat route. -/
structure DocumentRow where
  id : Nat
  user_id : Nat
  file_name : String
  storage_path : String
deriving DecidableEq, Repr

/-- A row of the chunks table as used by the chat route. -/
structure ChunkRow where
  id : Nat
  document_id : Nat
  chunk_text : String
  embedding : List ℚ
deriving DecidableEq, Repr

/-- The relational state visible to the vector search. -/
structure Database where
  documents : List DocumentRow
  chunks : List ChunkRow
deriving DecidableEq, Repr

/-- A row of the SELECT list of the vector search. -/
structure RetrievedRow where
  id : Nat
  chunk_text : String
  document_id : Nat
  file_name : String
  storage_path : String
deriving DecidableEq, Repr

/-- Squared Euclidean distance between embeddings. The SQL operator used
by the query is the Euclidean distance; ordering by it coincides with
ordering by its square, which keeps the model inside the rationals. -/
def sqDist (a b : List ℚ) : ℚ :=
  (List.zipWith (fun x y => (x - y) ^ 2) a b).sum

/-- The vector search of the chat handler (src/pages/api/chat.js lines
90-104): join chunks with documents on the document id, keep only rows
whose document belongs to the requesting user, order by distance between
the chunk embedding and the query embedding, return at most 30 rows with
the selected columns. -/
def vectorQuery (db : Database) (userId : Nat) (queryEmbedding : List ℚ) :
    List RetrievedRow :=
  let joined := db.chunks.flatMap fun c =>
    (db.documents.filter fun d =>
      c.document_id == d.id && d.user_id == userId).map fun d => (c, d)
  let sorted := List.insertionSort
    (fun p q : ChunkRow × DocumentRow =>
      sqDist p.1.embedding queryEmbedding ≤ sqDist q.1.embedding queryEmbedding)
    joined
  (sorted.take 30).map fun p =>
    ⟨p.1.id, p.1.chunk_text, p.1.document_id, p.2.file_name, p.2.storage_path⟩

/-! ## Claim C1 -/

/-- Claim C1 (confirmed): every row returned by the retrieval step belongs
to a document of the requesting user — the ownership filter is part of the
join, so no chunk of another user can survive it, for any query embedding
and any database state. -/
theorem vectorQuery_user_scoped (db : Database) (userId : Nat)
    (queryEmbedding : List ℚ) (r : RetrievedRow)
    (hr : r ∈ vectorQuery db userId queryEmbedding) :
    ∃ d ∈ db.documents, d.id = r.document_id ∧ d.user_id = userId := by
  unfold vectorQuery at hr
  simp only [List.mem_map] at hr
  obtain ⟨p, hp, rfl⟩ := hr
  have hp1 := List.mem_of_mem_take hp
  have hp2 := (List.perm_insertionSort _ _).subset hp1
  rw [List.mem_flatMap] at hp2
  obtain ⟨c, _, hcd⟩ := hp2
  rw [List.mem_map] at hcd
  obtain ⟨d, hdf, rfl⟩ := hcd
  rw [List.mem_filter] at hdf
  obtain ⟨hdm, hcond⟩ := hdf
  simp only [Bool.and_eq_true, beq_iff_eq] at hcond
  exact ⟨d, hdm, hcond.1.symm, hcond.2⟩

/-- A concrete database with two users for the C1 witness. -/
def dbC1 : Database :=
  ⟨[⟨1, 7, "f1", "p1"⟩, ⟨2, 9, "f2", "p2"⟩],
   [⟨10, 1, "t1", [0]⟩, ⟨11, 2, "t2", [0]⟩]⟩

/-- Witness for C1: the query for user 7 returns exactly the chunk of the
document owned by user 7, and that row satisfies the ownership property. -/
theorem vectorQuery_user_scoped_witness :
    (⟨10, "t1", 1, "f1", "p1"⟩ : RetrievedRow) ∈ vectorQuery dbC1 7 [0] ∧
    ∃ d ∈ dbC1.documents,
      d.id = (⟨10, "t1", 1, "f1", "p1"⟩ : RetrievedRow).document_id ∧
      d.user_id = 7 :=
  ⟨by decide, vectorQuery_user_scoped dbC1 7 [0] _ (by decide)⟩

/-! ## Reranking and the generation context (claim C4) -/

/-- The `rerank` function of the chat handler (src/pages/api/chat.js lines
115-126): score every (question, chunk text) pair through the cross-encoder
(the string passed to the model is the question, a separator token, and
the chunk text), sort by score descending, keep the first 6. The scored
object spreads the original row, so identity and metadata survive. -/
def rerank (rerankerScore : String → ℚ) (question : String)
    (chunks : List RetrievedRow) : List (RetrievedRow × ℚ) :=
  let scored := chunks.map fun c =>
    (c, rerankerScore (question ++ " [SEP] " ++ c.chunk_text))
  (List.insertionSort (fun a b : RetrievedRow × ℚ => b.2 ≤ a.2) scored).take 6

/-- The rows the chat handler actually hands to generation
(src/pages/api/chat.js): `finalRows` starts as the full retrieved set and
is replaced only by a successful rephrase retrieval; `rerank` is never
called on it. -/
def finalRowsForGeneration (rows newRows : List RetrievedRow)
    (needsCorrection rephrased : Bool) : List RetrievedRow :=
  if needsCorrection then
    if rephrased then (if newRows.isEmpty then rows else newRows) else rows
  else rows

/-- The generation context string: the chunk texts of the final rows
joined with blank lines. -/
def finalContext (rows : List RetrievedRow) : String :=
  String.intercalate "\n\n" (rows.map fun r => r.chunk_text)

/-- Seven retrieved rows for the C4 failing input. -/
def rowsC4 : List RetrievedRow :=
  [⟨1, "t1", 1, "f", "p"⟩, ⟨2, "t2", 2, "f", "p"⟩, ⟨3, "t3", 3, "f", "p"⟩,
   ⟨4, "t4", 4, "f", "p"⟩, ⟨5, "t5", 5, "f", "p"⟩, ⟨6, "t6", 6, "f", "p"⟩,
   ⟨7, "t7", 7, "f", "p"⟩]

/-- A concrete cross-encoder for the C4 failing input: row i scores 8 - i,
so row 7 scores lowest. -/
def scorerC4 : String → ℚ := fun s =>
  if s = "q [SEP] t1" then 7 else if s = "q [SEP] t2" then 6
  else if s = "q [SEP] t3" then 5 else if s = "q [SEP] t4" then 4
  else if s = "q [SEP] t5" then 3 else if s = "q [SEP] t6" then 2
  else 1

/-! ## Claim C4 -/

/-- Claim C4 (code bug): `rerank` would keep only the top 6 candidates
(here rows 1-6, excluding the lowest-scoring row 7), but the handler never
calls it — the rows used for generation are the full retrieved set, all 7
rows, including row 7. So generation does not use the top-6 reranked
context the spec describes. -/
theorem rerank_unused_for_generation :
    ((rerank scorerC4 "q" rowsC4).map fun p => p.1.id) = [1, 2, 3, 4, 5, 6] ∧
    finalRowsForGeneration rowsC4 [] false false = rowsC4 ∧
    (finalRowsForGeneration rowsC4 [] false false).length = 7 := by
  decide

/-! ## Self-correction relevance assessment (claim C8) -/

/-- The object returned by `assessContextRelevance`: the short-circuit
branch carries a reason, the computed branch carries the average
similarity and the threshold. -/
structure RelevanceAssessment where
  needsCorrection : Bool
  reason : Option String
  avgSimilarity : Option ℚ
  threshold : Option ℚ
deriving DecidableEq, Repr

/-- `assessContextRelevance` from src/lib/selfCorrection.js lines 21-49.
The embedding model and the cosine kernel are external collaborators:
`embed` returns `none` when the model throws (chunk embeddings are wrapped
in try/catch and skipped on failure; the question embedding is not
wrapped, so its failure propagates, modelled by the outer `none`). Chunks
with empty text are skipped. The average over the surviving similarities
(0 when none survive) is compared against the threshold; the default
threshold in the source is 0.30. -/
def assessContextRelevance (embed : String → Option (List ℚ))
    (cosineSim : List ℚ → List ℚ → ℚ) (question : String)
    (contextChunks : List RetrievedRow) (threshold : ℚ) :
    Option RelevanceAssessment :=
  if question = "" ∨ contextChunks = [] then
    some ⟨true, some "no_context", none, none⟩
  else
    match embed question with
    | none => none
    | some qEmb =>
      let sims := contextChunks.filterMap fun c =>
        if c.chunk_text = "" then none
        else (embed c.chunk_text).map fun emb => cosineSim qEmb emb
      let avg : ℚ := if sims.length = 0 then 0 else sims.sum / sims.length
      some ⟨decide (avg < threshold), none, some avg, some threshold⟩

theorem filterMap_eq_map_of_all_some {α β : Type} (f : α → Option β)
    (g : α → β) (l : List α) (h : ∀ a ∈ l, f a = some (g a)) :
    l.filterMap f = l.map g := by
  induction l with
  | nil => rfl
  | cons x t ih =>
    rw [List.filterMap_cons, h x (List.mem_cons_self _ _), List.map_cons,
      ih fun a ha => h a (List.mem_cons_of_mem x ha)]

/-! ## Claim C8 -/

/-- Claim C8 (confirmed): with an empty candidate list (or an absent
question) the assessment is needsCorrection with reason no_context; for a
non-empty candidate list whose texts are non-empty and whose embeddings
all succeed, needsCorrection holds exactly when the mean cosine similarity
between the question embedding and the candidate embeddings is below the
threshold 0.30. -/
theorem assessContextRelevance_spec (embed : String → Option (List ℚ))
    (cosineSim : List ℚ → List ℚ → ℚ) (question : String)
    (contextChunks : List RetrievedRow) (qEmb : List ℚ)
    (chunkEmb : RetrievedRow → List ℚ)
    (hq : question ≠ "") (hne : contextChunks ≠ [])
    (htxt : ∀ c ∈ contextChunks, c.chunk_text ≠ "")
    (hemb : ∀ c ∈ contextChunks, embed c.chunk_text = some (chunkEmb c))
    (hqe : embed question = some qEmb) :
    (∀ q cs, cs = [] ∨ q = "" →
      assessContextRelevance embed cosineSim q cs (3/10)
        = some ⟨true, some "no_context", none, none⟩) ∧
    assessContextRelevance embed cosineSim question contextChunks (3/10)
      = some ⟨decide
          ((contextChunks.map fun c => cosineSim qEmb (chunkEmb c)).sum
            / contextChunks.length < 3/10), none,
          some ((contextChunks.map fun c => cosineSim qEmb (chunkEmb c)).sum
            / contextChunks.length), some (3/10)⟩ := by
  constructor
  · intro q cs hcs
    rcases hcs with h | h <;>
      simp [assessContextRelevance, h]
  · unfold assessContextRelevance
    rw [if_neg (by
      intro h
      rcases h with h | h
      · exact hq h
      · exact hne h)]
    rw [hqe]
    have hsims :
        (contextChunks.filterMap fun c =>
          if c.chunk_text = "" then none
          else (embed c.chunk_text).map fun emb => cosineSim qEmb emb)
        = contextChunks.map fun c => cosineSim qEmb (chunkEmb c) := by
      refine filterMap_eq_map_of_all_some _ _ _ ?_
      intro a ha
      rw [if_neg (htxt a ha), hemb a ha]
      rfl
    simp only [hsims]
    rw [if_neg (by
      simp only [List.length_map]
      intro h
      exact hne (List.length_eq_zero.mp h))]
    simp

/-- Witness for C8 at a concrete embedder, cosine kernel, question and
single-candidate list. -/
theorem assessContextRelevance_spec_witness :
    (("q" : String) ≠ "" ∧
      ([⟨1, "t", 1, "f", "p"⟩] : List RetrievedRow) ≠ []) ∧
    ((∀ q cs, cs = [] ∨ q = "" →
      assessContextRelevance (fun _ => some [1]) (fun _ _ => 1) q cs (3/10)
        = some ⟨true, some "no_context", none, none⟩) ∧
    assessContextRelevance (fun _ => some [1]) (fun _ _ => 1) "q"
        [⟨1, "t", 1, "f", "p"⟩] (3/10)
      = some ⟨decide
          ((([⟨1, "t", 1, "f", "p"⟩] : List RetrievedRow).map
              fun c => (fun _ _ => (1 : ℚ)) [1] ((fun _ => [1]) c)).sum
            / ([⟨1, "t", 1, "f", "p"⟩] : List RetrievedRow).length < 3/10),
          none,
          some ((([⟨1, "t", 1, "f", "p"⟩] : List RetrievedRow).map
              fun c => (fun _ _ => (1 : ℚ)) [1] ((fun _ => [1]) c)).sum
            / ([⟨1, "t", 1, "f", "p"⟩] : List RetrievedRow).length),
          some (3/10)⟩) :=
  ⟨⟨by decide, by decide⟩,
    assessContextRelevance_spec (fun _ => some [1]) (fun _ _ => 1) "q"
      [⟨1, "t", 1, "f", "p"⟩] [1] (fun _ => [1])
      (by decide) (by decide) (by decide) (fun c _ => rfl) rfl⟩

/-! ## Faithfulness scoring (claim C9) -/

/-- The object returned by `getFaithfulnessScore`. -/
structure FaithfulnessResult where
  score : ℤ
  perChunk : List (String × ℚ)
deriving DecidableEq, Repr

/-- JS `Math.round`: half-up rounding. -/
def jsRound (x : ℚ) : ℤ := ⌊x + 1/2⌋

/-- `getFaithfulnessScore` from lib/faithfulness.js lines 22-63: empty
context or absent answer give score 0 with an empty breakdown; otherwise
the answer is embedded (its failure propagates, the per-chunk embeddings
are wrapped in try/catch and score 0 on failure), each chunk text is
scored by cosine similarity against the answer embedding, the breakdown is
sorted by score descending, the top-K scores are averaged (denominator
floored at 1), and the average is mapped to a clamped 0-100 integer. -/
def getFaithfulnessScore (embed : String → Option (List ℚ))
    (cosineSim : List ℚ → List ℚ → ℚ) (contextChunks : List RetrievedRow)
    (answer : String) (topK : Nat) : Option FaithfulnessResult :=
  if answer = "" ∨ contextChunks = [] then some ⟨0, []⟩
  else
    match embed answer with
    | none => none
    | some answerEmb =>
      let chunks := contextChunks.map fun c => c.chunk_text
      let perChunk := chunks.map fun t =>
        (t, match embed t with
            | none => (0 : ℚ)
            | some emb => cosineSim answerEmb emb)
      let sorted :=
        List.insertionSort (fun a b : String × ℚ => b.2 ≤ a.2) perChunk
      let top := sorted.take topK
      let avg : ℚ := (top.map Prod.snd).sum / ((max 1 top.length : ℕ) : ℚ)
      some ⟨max 0 (min 100 (jsRound (avg * 100))), sorted⟩

instance : IsTotal (String × ℚ) (fun a b => b.2 ≤ a.2) :=
  ⟨fun a b => le_total b.2 a.2⟩

instance : IsTrans (String × ℚ) (fun a b => b.2 ≤ a.2) :=
  ⟨fun _ _ _ hab hbc => le_trans hbc hab⟩

instance : IsTotal ℚ (fun x y => y ≤ x) :=
  ⟨fun a b => le_total b a⟩

instance : IsTrans ℚ (fun x y => y ≤ x) :=
  ⟨fun _ _ _ hab hbc => le_trans hbc hab⟩

instance : IsAntisymm ℚ (fun x y => y ≤ x) :=
  ⟨fun _ _ h1 h2 => le_antisymm h2 h1⟩

theorem map_snd_insertionSort (l : List (String × ℚ)) :
    (List.insertionSort (fun a b : String × ℚ => b.2 ≤ a.2) l).map Prod.snd
      = List.insertionSort (fun x y : ℚ => y ≤ x) (l.map Prod.snd) := by
  have hperm :
      List.Perm
        ((List.insertionSort (fun a b : String × ℚ => b.2 ≤ a.2) l).map
          Prod.snd)
        (List.insertionSort (fun x y : ℚ => y ≤ x) (l.map Prod.snd)) :=
    ((List.perm_insertionSort _ l).map Prod.snd).trans
      (List.perm_insertionSort _ (l.map Prod.snd)).symm
  have h1 : List.Sorted (fun x y : ℚ => y ≤ x)
      ((List.insertionSort (fun a b : String × ℚ => b.2 ≤ a.2) l).map
        Prod.snd) := by
    have hs := List.sorted_insertionSort
      (fun a b : String × ℚ => b.2 ≤ a.2) l
    exact List.Pairwise.map Prod.snd (fun a b hab => hab) hs
  have h2 : List.Sorted (fun x y : ℚ => y ≤ x)
      (List.insertionSort (fun x y : ℚ => y ≤ x) (l.map Prod.snd)) :=
    List.sorted_insertionSort _ _
  exact List.eq_of_perm_of_sorted hperm h1 h2

/-! ## Claim C9 -/

/-- Claim C9 (confirmed): with an empty context (or an absent answer) the
faithfulness score is 0; for a non-empty context and answer whose
embeddings all succeed, the returned score is an integer in [0, 100] equal
to the clamped, half-up-rounded 100-fold mean of the top 3 per-chunk
cosine similarities between the answer embedding and the chunk
embeddings. -/
theorem getFaithfulnessScore_spec (embed : String → Option (List ℚ))
    (cosineSim : List ℚ → List ℚ → ℚ) (contextChunks : List RetrievedRow)
    (answer : String) (answerEmb : List ℚ) (chunkEmb : RetrievedRow → List ℚ)
    (ha : answer ≠ "") (hne : contextChunks ≠ [])
    (hemb : ∀ c ∈ contextChunks, embed c.chunk_text = some (chunkEmb c))
    (hae : embed answer = some answerEmb) :
    (∀ cs ans, cs = [] ∨ ans = "" →
      getFaithfulnessScore embed cosineSim cs ans 3 = some ⟨0, []⟩) ∧
    ∃ r, getFaithfulnessScore embed cosineSim contextChunks answer 3 = some r ∧
      0 ≤ r.score ∧ r.score ≤ 100 ∧
      r.score = max 0 (min 100 (jsRound
        ((((List.insertionSort (fun x y : ℚ => y ≤ x)
              (contextChunks.map fun c => cosineSim answerEmb (chunkEmb c))).take
            3).sum / ((min 3 contextChunks.length : ℕ) : ℚ)) * 100))) := by
  constructor
  · intro cs ans hcs
    rcases hcs with h | h <;> simp [getFaithfulnessScore, h]
  · unfold getFaithfulnessScore
    rw [if_neg (by
      intro h
      rcases h with h | h
      · exact ha h
      · exact hne h)]
    rw [hae]
    have hpc :
        ((contextChunks.map fun c => c.chunk_text).map fun t =>
          (t, match embed t with
              | none => (0 : ℚ)
              | some emb => cosineSim answerEmb emb))
        = contextChunks.map fun c =>
            (c.chunk_text, cosineSim answerEmb (chunkEmb c)) := by
      rw [List.map_map]
      refine List.map_congr_left ?_
      intro a ha2
      simp only [Function.comp]
      rw [hemb a ha2]
    refine ⟨_, rfl, ?_, ?_, ?_⟩
    · exact le_max_left 0 _
    · exact max_le (by norm_num) (min_le_left _ _)
    · simp only [hpc]
      have hsnd :
          ((List.insertionSort (fun a b : String × ℚ => b.2 ≤ a.2)
            (contextChunks.map fun c =>
              (c.chunk_text, cosineSim answerEmb (chunkEmb c)))).take 3).map
              Prod.snd
          = (List.insertionSort (fun x y : ℚ => y ≤ x)
              (contextChunks.map fun c =>
                cosineSim answerEmb (chunkEmb c))).take 3 := by
        rw [List.map_take, map_snd_insertionSort, List.map_map]
        rfl
      rw [hsnd]
      have hlen :
          (List.insertionSort (fun a b : String × ℚ => b.2 ≤ a.2)
            (contextChunks.map fun c =>
              (c.chunk_text, cosineSim answerEmb (chunkEmb c)))).length
          = contextChunks.length := by
        rw [(List.perm_insertionSort _ _).length_eq, List.length_map]
      have hn : contextChunks.length ≠ 0 := by
        intro h
        exact hne (List.length_eq_zero.mp h)
      rw [List.length_take, hlen]
      have hmax : max 1 (min 3 contextChunks.length)
          = min 3 contextChunks.length := by omega
      rw [hmax]

/-- Witness for C9 at a concrete embedder, cosine kernel, answer and
single-chunk context. -/
theorem getFaithfulnessScore_spec_witness :
    (("a" : String) ≠ "" ∧
      ([⟨1, "t", 1, "f", "p"⟩] : List RetrievedRow) ≠ []) ∧
    ((∀ cs ans, cs = [] ∨ ans = "" →
      getFaithfulnessScore (fun _ => some [1]) (fun _ _ => 1) cs ans 3
        = some ⟨0, []⟩) ∧
    ∃ r, getFaithfulnessScore (fun _ => some [1]) (fun _ _ => 1)
        [⟨1, "t", 1, "f", "p"⟩] "a" 3 = some r ∧
      0 ≤ r.score ∧ r.score ≤ 100 ∧
      r.score = max 0 (min 100 (jsRound
        ((((List.insertionSort (fun x y : ℚ => y ≤ x)
              (([⟨1, "t", 1, "f", "p"⟩] : List RetrievedRow).map
                fun c => (fun _ _ => (1 : ℚ)) [1] ((fun _ => [1]) c))).take
            3).sum
          / ((min 3 ([⟨1, "t", 1, "f", "p"⟩] : List RetrievedRow).length : ℕ)
              : ℚ)) * 100)))) :=
  ⟨⟨by decide, by decide⟩,
    getFaithfulnessScore_spec (fun _ => some [1]) (fun _ _ => 1)
      [⟨1, "t", 1, "f", "p"⟩] "a" [1] (fun _ => [1])
      (by decide) (by decide) (fun c _ => rfl) rfl⟩

/-! ## Document deletion (claim C10, DELETE branch of pages/api/docs.js) -/

/-- A documents-table row as used by the docs route. -/
structure DocsDocRow where
  id : Nat
  user_id : Nat
  storage_path : String
deriving DecidableEq, Repr

/-- A chunks-table row as used by the docs route. -/
structure DocsChunkRow where
  id : Nat
  document_id : Nat
deriving DecidableEq, Repr

/-- The state the delete handler acts on: the two tables plus the storage
bucket contents. -/
structure DocsState where
  documents : List DocsDocRow
  chunks : List DocsChunkRow
  storageObjects : List String
deriving DecidableEq, Repr

/-- The destructive operations the handler issues, in order. -/
inductive DeleteOp where
  | deleteChunksOf (documentId : Nat)
  | deleteDocumentRow (documentId : Nat)
  | removeStorageObject (path : String)
deriving DecidableEq, Repr

/-- The outcome of the delete handler: final state, HTTP status, and the
ordered list of destructive operations issued. -/
structure DeleteOutcome where
  state : DocsState
  status : Nat
  ops : List DeleteOp
deriving DecidableEq, Repr

/-- The DELETE branch of the docs handler: select the document whose id
and owning user match (limit 1); on no match answer 404 and touch nothing;
on a match delete its chunks, then its row, then (when the stored path is
non-empty) the storage object, and answer success. -/
def deleteDocumentHandler (st : DocsState) (userId documentId : Nat) :
    DeleteOutcome :=
  match (st.documents.filter fun d =>
      d.id == documentId && d.user_id == userId).head? with
  | none => ⟨st, 404, []⟩
  | some doc =>
    let st1 : DocsState :=
      { st with chunks := st.chunks.filter fun c => !(c.document_id == documentId) }
    let st2 : DocsState :=
      { st1 with documents := st1.documents.filter fun d => !(d.id == documentId) }
    if doc.storage_path ≠ "" then
      ⟨{ st2 with storageObjects :=
          st2.storageObjects.filter fun p => !(p == doc.storage_path) }, 200,
        [DeleteOp.deleteChunksOf documentId,
         DeleteOp.deleteDocumentRow documentId,
         DeleteOp.removeStorageObject doc.storage_path]⟩
    else
      ⟨st2, 200,
        [DeleteOp.deleteChunksOf documentId,
         DeleteOp.deleteDocumentRow documentId]⟩

/-! ## Claim C10 -/

/-- Claim C10 (confirmed): a delete request for a document the requester
does not own (or that does not exist) answers 404 and deletes nothing; a
delete request by the owner removes the document's chunks, its row, and
its stored object, issuing the chunk deletion before the row deletion.
Document ids are assumed unique (primary key). -/
theorem deleteDocumentHandler_spec (st : DocsState) (userId documentId : Nat)
    (d : DocsDocRow) (hd : d ∈ st.documents) (hid : d.id = documentId)
    (huid : d.user_id = userId)
    (huniq : ∀ d2 ∈ st.documents, d2.id = documentId → d2 = d)
    (hpath : d.storage_path ≠ "") :
    (∀ st2 uid2 docId2,
      (∀ d2 ∈ st2.documents, ¬(d2.id = docId2 ∧ d2.user_id = uid2)) →
      deleteDocumentHandler st2 uid2 docId2 = ⟨st2, 404, []⟩) ∧
    ((deleteDocumentHandler st userId documentId).status = 200 ∧
     (∀ c ∈ (deleteDocumentHandler st userId documentId).state.chunks,
        c.document_id ≠ documentId) ∧
     (∀ d2 ∈ (deleteDocumentHandler st userId documentId).state.documents,
        d2.id ≠ documentId) ∧
     d.storage_path ∉
        (deleteDocumentHandler st userId documentId).state.storageObjects ∧
     (deleteDocumentHandler st userId documentId).ops =
        [DeleteOp.deleteChunksOf documentId,
         DeleteOp.deleteDocumentRow documentId,
         DeleteOp.removeStorageObject d.storage_path]) := by
  constructor
  · intro st2 uid2 docId2 hnone
    have hfe : (st2.documents.filter fun d2 =>
        d2.id == docId2 && d2.user_id == uid2) = [] := by
      rw [List.filter_eq_nil_iff]
      intro a ha
      have := hnone a ha
      simp only [Bool.and_eq_true, beq_iff_eq, not_and] at this ⊢
      tauto
    unfold deleteDocumentHandler
    rw [hfe]
    rfl
  · have hmem : d ∈ st.documents.filter fun d2 =>
        d2.id == documentId && d2.user_id == userId := by
      rw [List.mem_filter]
      exact ⟨hd, by simp [hid, huid]⟩
    have hnn := List.ne_nil_of_mem hmem
    obtain ⟨x, xs, hxx⟩ := List.exists_cons_of_ne_nil hnn
    have hxmem : x ∈ st.documents.filter fun d2 =>
        d2.id == documentId && d2.user_id == userId := by
      rw [hxx]; exact List.mem_cons_self _ _
    rw [List.mem_filter] at hxmem
    obtain ⟨hxdoc, hxcond⟩ := hxmem
    simp only [Bool.and_eq_true, beq_iff_eq] at hxcond
    have hxd : x = d := huniq x hxdoc hxcond.1
    have hhead : (st.documents.filter fun d2 =>
        d2.id == documentId && d2.user_id == userId).head? = some d := by
      rw [hxx, List.head?_cons, hxd]
    unfold deleteDocumentHandler
    rw [hhead]
    dsimp only
    rw [if_pos hpath]
    refine ⟨rfl, ?_, ?_, ?_, rfl⟩
    · intro c hc
      rw [List.mem_filter] at hc
      simpa using hc.2
    · intro d2 hd2
      rw [List.mem_filter] at hd2
      simpa using hd2.2
    · intro hmem2
      rw [List.mem_filter] at hmem2
      simp at hmem2

/-- A concrete one-document state for the C10 witness. -/
def stC10 : DocsState :=
  ⟨[⟨1, 7, "pa"⟩], [⟨100, 1⟩, ⟨101, 2⟩], ["pa", "pb"]⟩

/-- Witness for C10: user 7 deletes document 1; the chunks of document 1,
the document row, and the storage object all disappear, in that order. -/
theorem deleteDocumentHandler_spec_witness :
    ((⟨1, 7, "pa"⟩ : DocsDocRow) ∈ stC10.documents ∧
      (∀ d2 ∈ stC10.documents, d2.id = 1 → d2 = ⟨1, 7, "pa"⟩)) ∧
    ((∀ st2 uid2 docId2,
      (∀ d2 ∈ st2.documents, ¬(d2.id = docId2 ∧ d2.user_id = uid2)) →
      deleteDocumentHandler st2 uid2 docId2 = ⟨st2, 404, []⟩) ∧
    ((deleteDocumentHandler stC10 7 1).status = 200 ∧
     (∀ c ∈ (deleteDocumentHandler stC10 7 1).state.chunks,
        c.document_id ≠ 1) ∧
     (∀ d2 ∈ (deleteDocumentHandler stC10 7 1).state.documents,
        d2.id ≠ 1) ∧
     ("pa" : String) ∉ (deleteDocumentHandler stC10 7 1).state.storageObjects ∧
     (deleteDocumentHandler stC10 7 1).ops =
        [DeleteOp.deleteChunksOf 1, DeleteOp.deleteDocumentRow 1,
         DeleteOp.removeStorageObject "pa"])) :=
  ⟨⟨by decide, by decide⟩,
    deleteDocumentHandler_spec stC10 7 1 ⟨1, 7, "pa"⟩
      (by decide) rfl rfl (by decide) (by decide)⟩

/-! ## Upload handler (claim C2, pages/api/upload.js) -/

/-- A documents-table row as inserted by the upload route. -/
structure UploadDocumentRow where
  id : Nat
  user_id : Nat
  file_name : String
  storage_path : String
  file_hash : String
deriving DecidableEq, Repr

/-- A chunks-table row as inserted by the inline fallback of the upload
route. -/
structure UploadChunkRow where
  document_id : Nat
  chunk_text : List Char
  embedding : List ℚ
  token_count : Nat
deriving DecidableEq, Repr

/-- The state the upload handler acts on: the documents and chunks tables,
the storage bucket contents, and the next fresh document id. -/
structure UploadState where
  documents : List UploadDocumentRow
  chunks : List UploadChunkRow
  storageObjects : List String
  nextId : Nat
deriving DecidableEq, Repr

/-- The per-file result object pushed by the upload route. -/
structure UploadOutcome where
  fileName : String
  documentId : Nat
  storagePath : String
  queued : Bool
  note : Option String
deriving DecidableEq, Repr

/-- The JS extension capture on the original file name: a dot followed by
one or more non-dot characters at the end of the name, or the empty string
when there is no such match. -/
def fileExtension (name : List Char) : List Char :=
  let afterRev := name.reverse.takeWhile fun c => !(c == '.')
  if afterRev.length = name.length then []
  else if afterRev = [] then []
  else '.' :: afterRev.reverse

/-- The inline-fallback chunk loop of the upload route: embed each cleaned
paragraph and insert it; the whole loop sits in one try/catch, so an
embedder exception (`none`) ends it. -/
def processInlineChunks (embed : List Char → Option (List ℚ))
    (documentId : Nat) : List (List Char) → List UploadChunkRow
  | [] => []
  | t :: rest =>
    match embed t with
    | none => []
    | some v =>
      ⟨documentId, t, v, countWsRunsAux false t + 1⟩ ::
        processInlineChunks embed documentId rest

/-- One iteration of the upload handler loop (pages/api/upload.js) for one
uploaded file, modelling the Redis-unavailable path (the queued path
differs only in inserting no chunks synchronously). The content hash and
the PDF text extractor are external collaborators. Steps: hash the bytes,
derive the storage path from the hash and the file-name extension; if a
document with this storage path already exists for this user, return its
id and change nothing (dedup short-circuit); otherwise upload the bytes
(tolerating an existing object), insert a document row, and run the inline
chunking fallback. -/
def uploadFile (hashFn : List Char → String)
    (parsePdfText : List Char → List Char)
    (embed : List Char → Option (List ℚ)) (st : UploadState) (userId : Nat)
    (origName : String) (content : List Char) :
    UploadState × UploadOutcome :=
  let hash := hashFn content
  let storagePath := "uploads/" ++ hash ++ String.mk (fileExtension origName.toList)
  match st.documents.find? fun d =>
      d.storage_path == storagePath && d.user_id == userId with
  | some d =>
    (st, ⟨origName, d.id, storagePath, false, some "Already uploaded by you"⟩)
  | none =>
    let storage2 := if st.storageObjects.contains storagePath then
        st.storageObjects else st.storageObjects ++ [storagePath]
    let newDoc : UploadDocumentRow :=
      ⟨st.nextId, userId, origName, storagePath, hash⟩
    let texts := ((splitOnBlankLines (parsePdfText content)).map cleanText).filter
      fun t => t ≠ []
    let newChunks := processInlineChunks embed st.nextId texts
    (⟨st.documents ++ [newDoc], st.chunks ++ newChunks, storage2, st.nextId + 1⟩,
      ⟨origName, st.nextId, storagePath, false,
        some "Redis unavailable - inline processing"⟩)

theorem find?_append_of_none {α : Type} (p : α → Bool) (l1 l2 : List α)
    (h : l1.find? p = none) : (l1 ++ l2).find? p = l2.find? p := by
  induction l1 with
  | nil => rfl
  | cons x t ih =>
    rw [List.find?_cons] at h
    by_cases hx : p x = true
    · rw [hx] at h
      simp at h
    · rw [Bool.not_eq_true] at hx
      rw [hx] at h
      rw [List.cons_append, List.find?_cons, hx]
      exact ih h

/-! ## Claim C2 -/

/-- Claim C2 (amended): re-uploading the same bytes for the same user with
the same file-name extension changes nothing — no new document row, no new
chunks, no new storage object — and returns the identifier the first
upload returned, unqueued. The same-extension proviso is forced by the
counterexample: the dedup key is the hash-derived storage path, which
includes the extension of the uploaded file name. -/
theorem uploadFile_idempotent (hashFn : List Char → String)
    (parsePdfText : List Char → List Char)
    (embed : List Char → Option (List ℚ)) (st : UploadState) (userId : Nat)
    (name1 name2 : String) (content : List Char)
    (hext : fileExtension name2.toList = fileExtension name1.toList) :
    (uploadFile hashFn parsePdfText embed
        (uploadFile hashFn parsePdfText embed st userId name1 content).1
        userId name2 content).1
      = (uploadFile hashFn parsePdfText embed st userId name1 content).1 ∧
    (uploadFile hashFn parsePdfText embed
        (uploadFile hashFn parsePdfText embed st userId name1 content).1
        userId name2 content).2.documentId
      = (uploadFile hashFn parsePdfText embed st userId name1 content).2.documentId ∧
    (uploadFile hashFn parsePdfText embed
        (uploadFile hashFn parsePdfText embed st userId name1 content).1
        userId name2 content).2.queued = false := by
  simp only [uploadFile, hext]
  cases hfind : st.documents.find? fun d =>
      d.storage_path ==
        "uploads/" ++ hashFn content ++ String.mk (fileExtension name1.toList)
      && d.user_id == userId with
  | some d =>
    rw [hfind]
    exact ⟨rfl, rfl, rfl⟩
  | none =>
    simp only [hfind]
    rw [find?_append_of_none _ _ _ hfind]
    simp [List.find?]

/-- Witness for C2 at a concrete hash, extractor, embedder, user and
content, with two file names sharing the extension. -/
theorem uploadFile_idempotent_witness :
    fileExtension ("b.pdf" : String).toList
      = fileExtension ("a.pdf" : String).toList ∧
    ((uploadFile (fun _ => "h") (fun _ => []) (fun _ => some [])
        (uploadFile (fun _ => "h") (fun _ => []) (fun _ => some [])
          ⟨[], [], [], 0⟩ 0 "a.pdf" ['x']).1 0 "b.pdf" ['x']).1
      = (uploadFile (fun _ => "h") (fun _ => []) (fun _ => some [])
          ⟨[], [], [], 0⟩ 0 "a.pdf" ['x']).1 ∧
    (uploadFile (fun _ => "h") (fun _ => []) (fun _ => some [])
        (uploadFile (fun _ => "h") (fun _ => []) (fun _ => some [])
          ⟨[], [], [], 0⟩ 0 "a.pdf" ['x']).1 0 "b.pdf" ['x']).2.documentId
      = (uploadFile (fun _ => "h") (fun _ => []) (fun _ => some [])
          ⟨[], [], [], 0⟩ 0 "a.pdf" ['x']).2.documentId ∧
    (uploadFile (fun _ => "h") (fun _ => []) (fun _ => some [])
        (uploadFile (fun _ => "h") (fun _ => []) (fun _ => some [])
          ⟨[], [], [], 0⟩ 0 "a.pdf" ['x']).1 0 "b.pdf" ['x']).2.queued
      = false) :=
  ⟨by decide,
    uploadFile_idempotent (fun _ => "h") (fun _ => []) (fun _ => some [])
      ⟨[], [], [], 0⟩ 0 "a.pdf" "b.pdf" ['x'] (by decide)⟩

/-- Counterexample to C2 as stated: the same bytes uploaded twice by the
same user under file names with different extensions produce two document
rows — the dedup key is the storage path, which embeds the extension, not
the content hash alone. -/
theorem uploadFile_idempotent_counterexample :
    ((uploadFile (fun _ => "h") (fun _ => []) (fun _ => some [])
        (uploadFile (fun _ => "h") (fun _ => []) (fun _ => some [])
          ⟨[], [], [], 0⟩ 0 "a.pdf" ['x']).1 0 "a.txt" ['x']).1.documents.length
      = 2) ∧
    ((uploadFile (fun _ => "h") (fun _ => []) (fun _ => some [])
        ⟨[], [], [], 0⟩ 0 "a.pdf" ['x']).1.documents.length = 1) := by
  decide
